import Mathlib

/-!
Verification of the tll channel runtime (channel context, suspend/resume
propagation, callback tables, processor loop) against a shallow Lean
embedding of `src/channel/context.cc`, `src/tll/channel.h` and
`src/tll/processor/loop.h`.

Machine integers (`unsigned` dcaps/caps masks, `int` return codes) are
modelled as `Nat`; the only C operations used on them are `|`, `&`, `^`
and `& ~mask`, all of which stay below the word width, so no explicit
`% 2^32` is needed.  Pointers are modelled as `Option` (null = `none`)
or as opaque `Nat` identities.  A C null-pointer dereference is modelled
as a distinguished `crash`/`none` outcome.
-/

/-! ### Constants from `src/tll/channel.h` -/

/-- `TLL_DCAPS_POLLIN` (channel.h line 98). -/
def TLL_DCAPS_POLLIN : Nat := 0x1
/-- `TLL_DCAPS_POLLOUT` (channel.h line 99). -/
def TLL_DCAPS_POLLOUT : Nat := 0x2
/-- `TLL_DCAPS_POLLMASK` (channel.h line 100). -/
def TLL_DCAPS_POLLMASK : Nat := 0x3
/-- `TLL_DCAPS_PROCESS` (channel.h line 102). -/
def TLL_DCAPS_PROCESS : Nat := 0x10
/-- `TLL_DCAPS_PENDING` (channel.h line 103). -/
def TLL_DCAPS_PENDING : Nat := 0x20
/-- `TLL_DCAPS_SUSPEND` (channel.h line 104). -/
def TLL_DCAPS_SUSPEND : Nat := 0x40
/-- `TLL_DCAPS_SUSPEND_PERMANENT` (channel.h line 105): the value in the
header is `0x70`, which overlaps the `PROCESS` (0x10), `PENDING` (0x20)
and `SUSPEND` (0x40) bits. -/
def TLL_DCAPS_SUSPEND_PERMANENT : Nat := 0x70

/-- `TLL_CAPS_EX_BIT` (channel.h line 90). -/
def TLL_CAPS_EX_BIT : Nat := 0x800000
/-- `TLL_CAPS_CUSTOM` (channel.h line 92). -/
def TLL_CAPS_CUSTOM : Nat := TLL_CAPS_EX_BIT ||| 0x1

/-- `TLL_MESSAGE_MASK_DATA = 1 << TLL_MESSAGE_DATA` (channel.h line 134). -/
def TLL_MESSAGE_MASK_DATA : Nat := 0x1
/-- `TLL_MESSAGE_MASK_STATE = 1 << TLL_MESSAGE_STATE` (channel.h line 136). -/
def TLL_MESSAGE_MASK_STATE : Nat := 0x4

/-- Linux `EAGAIN`, the reinit / no-work return code. -/
def EAGAIN : Nat := 11
/-- Linux `ENOENT`, the `NOT_FOUND` error kind. -/
def ENOENT : Nat := 2
/-- Linux `EINVAL`, the `INVALID` error kind. -/
def EINVAL : Nat := 22

/-! ### Bit-mask helpers

`clearBits d m` models the C idiom `d &= ~m` on an unsigned integer:
xor-ing `d` with `d &&& m` removes exactly the bits of `m` that are set
in `d`, independently of the word width. -/

def clearBits (d m : Nat) : Nat := d ^^^ (d &&& m)

theorem testBit_clearBits (d m : Nat) (i : Nat) :
    (clearBits d m).testBit i = (d.testBit i && !(m.testBit i)) := by
  simp only [clearBits, Nat.testBit_xor, Nat.testBit_and]
  cases hd : d.testBit i <;> cases hm : m.testBit i <;> rfl

theorem lor_land_self (a m : Nat) : (a ||| m) &&& m = m := by
  apply Nat.eq_of_testBit_eq
  intro i
  simp only [Nat.testBit_land, Nat.testBit_or]
  cases h : m.testBit i <;> simp [h]

theorem lor_land_absorb (a b m : Nat) (h : a &&& m = m) : (a ||| b) &&& m = m := by
  apply Nat.eq_of_testBit_eq
  intro i
  have hi := congrArg (fun x => x.testBit i) h
  simp only [Nat.testBit_land] at hi
  simp only [Nat.testBit_land, Nat.testBit_or]
  cases hm : m.testBit i
  · simp
  · rw [hm, Bool.and_true] at hi
    simp [hi]

/-! ### Channel trees and suspend / resume (`src/channel/context.cc` lines 579-613)

A channel is modelled by its `dcaps` word and its child list (the
intrusive `internal->children` chain).  The C functions walk the child
list directly, so the model is a plain rose tree, built from a pair of
mutual inductives to keep all recursion structural. -/

mutual
inductive Chan where
  | mk (dcaps : Nat) (children : ChanList)
  deriving DecidableEq
inductive ChanList where
  | nil
  | cons (head : Chan) (tail : ChanList)
  deriving DecidableEq
end

/-- The `dcaps` of the root channel. -/
def Chan.rootDcaps : Chan → Nat
  | .mk d _ => d

mutual
/-- All `dcaps` words of a subtree, root first (for stating
"every channel of the subtree observes ..."). -/
def dcapsList : Chan → List Nat
  | .mk d cs => d :: dcapsListL cs
def dcapsListL : ChanList → List Nat
  | .nil => []
  | .cons c cs => dcapsList c ++ dcapsListL cs
end

mutual
/-- Static helper `suspend` (context.cc lines 580-585):
`dcaps |= dcaps::Suspend` on the channel, then recurse into children. -/
def suspendCh : Chan → Chan
  | .mk d cs => .mk (d ||| TLL_DCAPS_SUSPEND) (suspendChL cs)
def suspendChL : ChanList → ChanList
  | .nil => .nil
  | .cons c cs => .cons (suspendCh c) (suspendChL cs)
end

mutual
/-- Static helper `resume` (context.cc lines 587-594): return unchanged if
`dcaps & dcaps::SuspendPermanent` is non-zero, otherwise clear `Suspend`
and recurse into children. -/
def resumeCh : Chan → Chan
  | .mk d cs =>
      if d &&& TLL_DCAPS_SUSPEND_PERMANENT ≠ 0 then .mk d cs
      else .mk (clearBits d TLL_DCAPS_SUSPEND) (resumeChL cs)
def resumeChL : ChanList → ChanList
  | .nil => .nil
  | .cons c cs => .cons (resumeCh c) (resumeChL cs)
end

/-- `tll_channel_suspend` (context.cc lines 597-604), non-null path:
`dcaps |= dcaps::SuspendPermanent` on the root, then the recursive
`suspend` helper over the whole subtree. -/
def tll_channel_suspend : Chan → Chan
  | .mk d cs => suspendCh (.mk (d ||| TLL_DCAPS_SUSPEND_PERMANENT) cs)

/-- `tll_channel_resume` (context.cc lines 606-613), non-null path:
`dcaps &= ~dcaps::SuspendPermanent` on the root, then the recursive
`resume` helper over the whole subtree. -/
def tll_channel_resume : Chan → Chan
  | .mk d cs => resumeCh (.mk (clearBits d TLL_DCAPS_SUSPEND_PERMANENT) cs)

mutual
theorem suspendCh_sets_suspend : ∀ (c : Chan),
    ∀ n ∈ dcapsList (suspendCh c), n &&& TLL_DCAPS_SUSPEND = TLL_DCAPS_SUSPEND
  | .mk d cs => by
      intro n hn
      simp only [suspendCh, dcapsList, List.mem_cons] at hn
      rcases hn with h | h
      · subst h; exact lor_land_self _ _
      · exact suspendChL_sets_suspend cs n h
theorem suspendChL_sets_suspend : ∀ (l : ChanList),
    ∀ n ∈ dcapsListL (suspendChL l), n &&& TLL_DCAPS_SUSPEND = TLL_DCAPS_SUSPEND
  | .nil => by intro n hn; simp [suspendChL, dcapsListL] at hn
  | .cons c cs => by
      intro n hn
      simp only [suspendChL, dcapsListL, List.mem_append] at hn
      rcases hn with h | h
      · exact suspendCh_sets_suspend c n h
      · exact suspendChL_sets_suspend cs n h
end

/-- Claim C1, counterexample: for a parent with one child (all dcaps
zero), `tll_channel_suspend` leaves the child without the
`SuspendPermanent` bits — only the root receives `Suspend|SuspendPermanent`,
so not every channel of the subtree observes `Suspend|SuspendPermanent`. -/
theorem c1_counterexample :
    ¬ (∀ n ∈ dcapsList (tll_channel_suspend
          (Chan.mk 0 (ChanList.cons (Chan.mk 0 ChanList.nil) ChanList.nil))),
        n &&& (TLL_DCAPS_SUSPEND ||| TLL_DCAPS_SUSPEND_PERMANENT)
          = (TLL_DCAPS_SUSPEND ||| TLL_DCAPS_SUSPEND_PERMANENT)) := by
  decide

/-- Claim C1 (amended): `tll_channel_suspend c` sets both `Suspend` and
`SuspendPermanent` on `c` itself, and sets (at least) the `Suspend` bit on
every channel of the subtree; descendants are not given `SuspendPermanent`. -/
theorem c1_suspend_subtree (c : Chan) :
    (tll_channel_suspend c).rootDcaps &&& (TLL_DCAPS_SUSPEND ||| TLL_DCAPS_SUSPEND_PERMANENT)
      = (TLL_DCAPS_SUSPEND ||| TLL_DCAPS_SUSPEND_PERMANENT)
  ∧ ∀ n ∈ dcapsList (tll_channel_suspend c),
      n &&& TLL_DCAPS_SUSPEND = TLL_DCAPS_SUSPEND := by
  obtain ⟨d, cs⟩ := c
  have hM : TLL_DCAPS_SUSPEND ||| TLL_DCAPS_SUSPEND_PERMANENT = TLL_DCAPS_SUSPEND_PERMANENT := by
    decide
  simp only [tll_channel_suspend]
  constructor
  · rw [hM]
    simp only [suspendCh, Chan.rootDcaps]
    exact lor_land_absorb _ _ _ (lor_land_self d _)
  · exact suspendCh_sets_suspend _

/-- Claim C2: evaluation of the code at the failing inputs.  Because
`TLL_DCAPS_SUSPEND_PERMANENT = 0x70` overlaps the `Process` (0x10) and
`Pending` (0x20) bits, a suspend/resume round trip on a channel whose
dcaps carried `Process` wipes that bit (first conjunct), and a resume is
a no-op on a child that merely carried `Pending`, leaving the child
suspended (second conjunct). -/
theorem c2_suspend_resume_failing :
    tll_channel_resume (tll_channel_suspend (Chan.mk TLL_DCAPS_PROCESS ChanList.nil))
      = Chan.mk 0 ChanList.nil
  ∧ TLL_DCAPS_PROCESS ≠ 0
  ∧ tll_channel_resume (tll_channel_suspend
        (Chan.mk 0 (ChanList.cons (Chan.mk TLL_DCAPS_PENDING ChanList.nil) ChanList.nil)))
      = Chan.mk 0 (ChanList.cons
          (Chan.mk (TLL_DCAPS_PENDING ||| TLL_DCAPS_SUSPEND) ChanList.nil) ChanList.nil)
  ∧ (TLL_DCAPS_PENDING ||| TLL_DCAPS_SUSPEND) &&& TLL_DCAPS_SUSPEND ≠ 0 := by
  decide

/-! ### Protocol resolution (`src/channel/context.cc` lines 232-279)

Protocols (`std::string_view`) are modelled as `List Char`; the registry
(`std::map<std::string, impl-or-alias>`) as an association list with
distinct keys.  An impl is identified by its name. -/

structure Url where
  proto : List Char
  kvs : List (String × String)
  deriving DecidableEq

inductive RegEntry where
  | impl (name : String)
  | alias (url : Url)
  deriving DecidableEq

def lookupAssoc (reg : List (List Char × RegEntry)) (k : List Char) : Option RegEntry :=
  match reg with
  | [] => none
  | (k0, e) :: rest => if k0 = k then some e else lookupAssoc rest k

/-- Split a protocol at its first `+`: returns
`(proto.substr(0, sep + 1), proto.substr(sep + 1))`, i.e. the prefix
including the `+` and the remainder, or `none` when the protocol has no
`+` (`proto.find('+') == npos`). -/
def splitPlus : List Char → Option (List Char × List Char)
  | [] => none
  | c :: rest =>
      if c = '+' then some ([c], rest)
      else match splitPlus rest with
        | none => none
        | some (p, r) => some (c :: p, r)

/-- `lookup(std::string_view proto)` (context.cc lines 232-251): exact
registry match first, then the prefix up to and including the first `+`. -/
def lookupProto (reg : List (List Char × RegEntry)) (proto : List Char) : Option RegEntry :=
  match lookupAssoc reg proto with
  | some e => some e
  | none =>
      match splitPlus proto with
      | none => none
      | some (pfx, _) => lookupAssoc reg pfx

/-- `aproto.back() == '+'` (context.cc line 266).  `back()` on an empty
string is undefined in C++; alias protocols are never empty, and the
model simply answers `false` there. -/
def endsPlus (l : List Char) : Bool := l.getLast? == some '+'

/-- The protocol rewrite of context.cc lines 264-269: if the requested
protocol contains `+` (`sep != proto.npos`) and the alias protocol ends
in `+`, concatenate `aproto + proto.substr(sep + 1)`; otherwise the new
protocol is the alias protocol. -/
def rewriteProto (proto aproto : List Char) : List Char :=
  match splitPlus proto with
  | some (_, rest) => if endsPlus aproto then aproto ++ rest else aproto
  | none => aproto

def Url.has (u : Url) (k : String) : Bool := u.kvs.any (fun p => p.1 == k)

/-- The key/value merge of context.cc lines 270-275: copy each alias
key into the caller URL, skipping `tll.proto` and `tll.host`; a key
present in both is a fatal duplicate (`none`). -/
def mergeAliasKvs (u : Url) : List (String × String) → Option Url
  | [] => some u
  | (k, v) :: rest =>
      if k = "tll.proto" ∨ k = "tll.host" then mergeAliasKvs u rest
      else if u.has k then none
      else mergeAliasKvs { u with kvs := u.kvs ++ [(k, v)] } rest

/-- `lookup(tll::Channel::Url &url)` (context.cc lines 253-279).  The C
loop `do { ... } while (true)` does not terminate on a cyclic alias
registry (spec section 9 documents this); the model takes fuel, and
`none` covers not-found, duplicate-field and out-of-fuel failures. -/
def lookupUrl (reg : List (List Char × RegEntry)) : Nat → Url → Option (String × Url)
  | 0, _ => none
  | fuel + 1, url =>
      match lookupProto reg url.proto with
      | none => none
      | some (.impl i) => some (i, url)
      | some (.alias a) =>
          let newProto := rewriteProto url.proto a.proto
          match mergeAliasKvs url a.kvs with
          | none => none
          | some u2 => lookupUrl reg fuel { u2 with proto := newProto }

/-- The rewrite rule exactly as claim C4 words it ("the new protocol is
A + P[after-first-'+'] exactly when P was matched as the prefix X+ and
the alias protocol A ends in '+'"): modelled from the spec, with the
match kind (`exact` vs `prefix`) as an explicit argument. -/
def rewriteProtoSpec (matchedAsPfx : Bool) (proto aproto : List Char) : List Char :=
  if matchedAsPfx ∧ endsPlus aproto then
    match splitPlus proto with
    | some (_, rest) => aproto ++ rest
    | none => aproto
  else aproto

theorem splitPlus_none_not_mem (l : List Char) (h : splitPlus l = none) : '+' ∉ l := by
  induction l with
  | nil => simp
  | cons c rest ih =>
      by_cases hc : c = '+'
      · subst hc; simp [splitPlus] at h
      · rw [splitPlus, if_neg hc] at h
        cases hr : splitPlus rest with
        | none => simp [hc, Ne.symm hc, ih hr]
        | some pr => rw [hr] at h; cases h

theorem splitPlus_some_spec (l : List Char) :
    ∀ p r, splitPlus l = some (p, r) →
      '+' ∈ l ∧ (l.dropWhile (fun c => !(c == '+'))).tail = r := by
  induction l with
  | nil => intro p r h; simp [splitPlus] at h
  | cons c rest ih =>
      intro p r h
      by_cases hc : c = '+'
      · subst hc
        rw [splitPlus, if_pos rfl] at h
        have hr : rest = r := congrArg Prod.snd (Option.some.inj h)
        subst hr
        exact ⟨List.mem_cons_self _ _, by simp [List.dropWhile]⟩
      · rw [splitPlus, if_neg hc] at h
        cases hsp : splitPlus rest with
        | none => rw [hsp] at h; cases h
        | some pr =>
            rw [hsp] at h
            obtain ⟨pp, rr⟩ := pr
            have hrr : rr = r := congrArg Prod.snd (Option.some.inj h)
            subst hrr
            obtain ⟨hmem, htail⟩ := ih pp rr hsp
            refine ⟨List.mem_cons_of_mem _ hmem, ?_⟩
            rw [List.dropWhile_cons, if_pos (by simp [hc])]
            exact htail

theorem rewriteProto_general (P A : List Char) :
    rewriteProto P A =
      if '+' ∈ P ∧ endsPlus A then A ++ (P.dropWhile (fun c => !(c == '+'))).tail
      else A := by
  cases hsp : splitPlus P with
  | none =>
      have hmem := splitPlus_none_not_mem P hsp
      rw [rewriteProto, hsp, if_neg (by simp [hmem])]
  | some pr =>
      obtain ⟨p, r⟩ := pr
      obtain ⟨hmem, htail⟩ := splitPlus_some_spec P p r hsp
      simp only [rewriteProto, hsp]
      by_cases hA : endsPlus A = true
      · rw [if_pos hA, if_pos ⟨hmem, hA⟩, htail]
      · rw [if_neg hA, if_neg (by simp [hA])]

/-- Registry with a pure prefix alias: `x+ -> y+://` over the impl `y+`. -/
def c4RegPfx : List (List Char × RegEntry) :=
  [ (['x', '+'], .alias ⟨['y', '+'], []⟩),
    (['y', '+'], .impl "y") ]

/-- Registry with a non-prefix alias `a -> b+c://` over the impl `b+c`. -/
def c4RegFlat : List (List Char × RegEntry) :=
  [ (['a'], .alias ⟨['b', '+', 'c'], []⟩),
    (['b', '+', 'c'], .impl "bc") ]

/-- Registry where an alias key itself contains a `+` and is matched
exactly: entry `x+z -> y+://` plus the impl `y+`. -/
def c4RegCx : List (List Char × RegEntry) :=
  [ (['x', '+', 'z'], .alias ⟨['y', '+'], []⟩),
    (['y', '+'], .impl "yimpl") ]

theorem splitPlus_two (a : Char) (z : List Char) (ha : a ≠ '+') :
    splitPlus (a :: '+' :: z) = some ([a, '+'], z) := by
  rw [splitPlus, if_neg ha, splitPlus, if_pos rfl]

theorem lookupAssoc_c4RegPfx_long (a : Char) (z : List Char) (hz : z ≠ [])
    (hx : a = 'x' ∨ a = 'y') :
    lookupAssoc c4RegPfx (a :: '+' :: z) = none := by
  have h1 : (['x', '+'] : List Char) ≠ a :: '+' :: z := by
    intro h
    rcases hx with h1 | h1 <;> subst h1 <;> simp at h
    exact hz h
  have h2 : (['y', '+'] : List Char) ≠ a :: '+' :: z := by
    intro h
    rcases hx with h1 | h1 <;> subst h1 <;> simp at h
    exact hz h
  simp only [c4RegPfx, lookupAssoc, if_neg h1, if_neg h2]

theorem lookupUrl_c4RegPfx (z : List Char) (hz : z ≠ []) :
    lookupUrl c4RegPfx 3 ⟨'x' :: '+' :: z, []⟩ = some ("y", ⟨'y' :: '+' :: z, []⟩) := by
  have hx := lookupAssoc_c4RegPfx_long 'x' z hz (Or.inl rfl)
  have hy := lookupAssoc_c4RegPfx_long 'y' z hz (Or.inr rfl)
  have hsx := splitPlus_two 'x' z (by decide)
  have hsy := splitPlus_two 'y' z (by decide)
  show lookupUrl c4RegPfx (2 + 1) _ = _
  rw [lookupUrl]
  simp only [lookupProto, hx, hsx]
  have hpfx : lookupAssoc c4RegPfx ['x', '+'] = some (.alias ⟨['y', '+'], []⟩) := by decide
  simp only [hpfx, rewriteProto, hsx, endsPlus]
  norm_num [mergeAliasKvs]
  show lookupUrl c4RegPfx (1 + 1) _ = _
  rw [lookupUrl]
  simp only [lookupProto, hy, hsy]
  have hpfy : lookupAssoc c4RegPfx ['y', '+'] = some (.impl "y") := by decide
  simp only [hpfy]

/-- Claim C4, counterexample: in a registry holding the alias entry
`x+z -> y+://` (an alias whose key contains `+` and is matched exactly,
not as a prefix) over the impl `y+`, resolving the protocol `x+z` still
concatenates: the final URL protocol is `y+z`, whereas the claim's rule
("concatenate exactly when P was matched as the prefix X+") prescribes
the alias protocol `y+` unchanged. -/
theorem c4_counterexample :
    lookupAssoc c4RegCx ['x', '+', 'z'] = some (.alias ⟨['y', '+'], []⟩)
  ∧ lookupUrl c4RegCx 10 ⟨['x', '+', 'z'], []⟩ = some ("yimpl", ⟨['y', '+', 'z'], []⟩)
  ∧ rewriteProtoSpec false ['x', '+', 'z'] ['y', '+'] = ['y', '+']
  ∧ (['y', '+', 'z'] : List Char) ≠ ['y', '+'] := by
  refine ⟨by decide, ?_, by decide, by decide⟩
  decide

/-- Claim C4 (amended): a prefix alias `x+ -> y+://` resolves any `x+z`
(`z` non-empty) to the protocol `y+z` and re-resolves it to the impl
registered under `y+` (first conjunct); a non-prefix alias `a -> b+c://`
resolves `a` to `b+c` (second conjunct); in general the rewritten
protocol is `A + P[after-first-'+']` exactly when `P` contains `+`
(whether matched exactly or as a prefix) and the alias protocol `A` ends
in `+`, and otherwise it is `A` (third conjunct). -/
theorem c4_protocol_rewrite (z P A : List Char) (hz : z ≠ []) :
    lookupUrl c4RegPfx 3 ⟨'x' :: '+' :: z, []⟩ = some ("y", ⟨'y' :: '+' :: z, []⟩)
  ∧ lookupUrl c4RegFlat 2 ⟨['a'], []⟩ = some ("bc", ⟨['b', '+', 'c'], []⟩)
  ∧ rewriteProto P A =
      (if '+' ∈ P ∧ endsPlus A then A ++ (P.dropWhile (fun c => !(c == '+'))).tail
       else A) :=
  ⟨lookupUrl_c4RegPfx z hz, by decide, rewriteProto_general P A⟩

/-- Witness for `c4_protocol_rewrite` at `z = [q]`, `P = [p]`, `A = []`. -/
theorem c4_protocol_rewrite_witness :
    lookupUrl c4RegPfx 3 ⟨['x', '+', 'q'], []⟩ = some ("y", ⟨['y', '+', 'q'], []⟩) :=
  (c4_protocol_rewrite ['q'] ['p'] [] (by decide)).1

/-! ### Channel instantiation (`tll_channel_context_t::init`, context.cc lines 457-524)

Impls are opaque `Nat` identities.  The behaviour of `impl->init` on the
(fixed) URL is a function from the impl to the returned code, the value
left in `c->impl` and the value left in `c->internal` (the channel is
reset with `*c = {}` before every attempt, so one value per impl).  The
modelled slice starts after impl resolution and master lookup and covers
the retry loop, the `Custom` cap line, the internal-pointer check and
the name/config registration. -/

structure Internal where
  name : Option String
  caps : Nat
  config : Nat
  deriving DecidableEq

/-- Effect of one `(*c->impl->init)(c, url, master, this)` call:
return code `r`, the resulting `c->impl` and the resulting `c->internal`. -/
structure ImplInit where
  r : Nat
  impl : Option Nat
  internal : Option Internal
  deriving DecidableEq

inductive InitOutcome where
  | ok (impl : Nat) (internal : Internal)
  | fail
  | crash
  | outOfFuel
  deriving DecidableEq

/-- The `do { ... } while (true)` retry loop of context.cc lines 485-505
(fuelled; the C loop itself can only run forever if impls keep producing
fresh replacements).  `crash` marks the null dereference in
`c->internal->caps |= caps::Custom` (line 500-501), which the code runs
before the `if (!c->internal)` check of lines 502-503. -/
def initLoop (beh : Nat → ImplInit) (internalFlag : Bool) :
    Nat → List Nat → Nat → InitOutcome
  | 0, _, _ => .outOfFuel
  | fuel + 1, impllog, impl =>
      if (beh impl).r = EAGAIN ∧ (beh impl).impl ≠ none ∧ (beh impl).impl ≠ some impl then
        match (beh impl).impl with
        | some newImpl =>
            if newImpl ∈ impllog then .fail
            else initLoop beh internalFlag fuel (impl :: impllog) newImpl
        | none => .fail
      else if (beh impl).r ≠ 0 then .fail
      else
        match (beh impl).internal with
        | none => if internalFlag then .crash else .fail
        | some i =>
            .ok impl (if internalFlag then { i with caps := i.caps ||| TLL_CAPS_CUSTOM } else i)

/-- Context state relevant to instantiation: the channel name index and
the mirrored per-channel config tree, both keyed by name. -/
structure CtxState where
  channels : List (String × Nat)
  config : List (String × Nat)
  deriving DecidableEq

/-- `std::map::emplace`: inserts only when the key is absent; the return
value (which would flag the duplicate) is discarded by the caller, as in
`channels.emplace(c->internal->name, c.get()); // Check for dup`. -/
def emplace (m : List (String × Nat)) (k : String) (v : Nat) : List (String × Nat) :=
  if m.any fun p => p.1 == k then m else m ++ [(k, v)]

/-- `tll_config_set_config(config, name, ...)`: overwrite-or-insert. -/
def setAssoc (m : List (String × Nat)) (k : String) (v : Nat) : List (String × Nat) :=
  match m with
  | [] => [(k, v)]
  | (k0, v0) :: rest => if k0 = k then (k0, v) :: rest else (k0, v0) :: setAssoc rest k v

/-- `std::map::erase(key)` / `tll_config_del`. -/
def eraseAssoc (m : List (String × Nat)) (k : String) : List (String × Nat) :=
  match m with
  | [] => []
  | (k0, v0) :: rest => if k0 = k then rest else (k0, v0) :: eraseAssoc rest k

/-- The observable result channel of `new_channel`. -/
structure ChannelModel where
  impl : Nat
  name : Option String
  caps : Nat
  config : Nat
  deriving DecidableEq

inductive NewChanOutcome where
  | ok (c : ChannelModel) (st : CtxState)
  | fail
  | crash
  | outOfFuel
  deriving DecidableEq

/-- `tll_channel_context_t::init` after impl resolution (context.cc
lines 478-524): run the retry loop, then — for a successful, non-internal
channel with a non-null name — `channels.emplace(name, c)` and mirror
the channel config with `tll_config_set_config` (lines 507-510).  `cid`
is the identity of the freshly allocated `tll_channel_t`. -/
def newChannel (st : CtxState) (beh : Nat → ImplInit) (internalFlag : Bool)
    (fuel impl0 cid : Nat) : NewChanOutcome :=
  match initLoop beh internalFlag fuel [] impl0 with
  | .outOfFuel => .outOfFuel
  | .fail => .fail
  | .crash => .crash
  | .ok impl i =>
      match internalFlag, i.name with
      | false, some n =>
          .ok ⟨impl, i.name, i.caps, i.config⟩
            ⟨emplace st.channels n cid, setAssoc st.config n i.config⟩
      | _, _ => .ok ⟨impl, i.name, i.caps, i.config⟩ st

inductive FreeOutcome where
  | ok (st : CtxState)
  | crash
  deriving DecidableEq

/-- `tll_channel_free` (context.cc lines 535-554), the name/index slice:
`std::string_view name = tll_channel_name(c)` reads the name
unconditionally (a null `internal->name` makes the `string_view`
constructor run `strlen(nullptr)`), then for channels without the
`Custom` cap erases the name from the context index and config tree. -/
def tll_channel_free (st : CtxState) (c : ChannelModel) : FreeOutcome :=
  match c.name with
  | none => .crash
  | some n =>
      if c.caps &&& TLL_CAPS_CUSTOM = 0 then
        .ok ⟨eraseAssoc st.channels n, eraseAssoc st.config n⟩
      else .ok st

/-- The replacement request produced by one loop iteration on impl `i`:
`some b` when `impl->init` returned `EAGAIN` having stored the distinct
non-null impl `b` in the channel, `none` otherwise. -/
def nextImpl (beh : Nat → ImplInit) (i : Nat) : Option Nat :=
  if (beh i).r = EAGAIN ∧ (beh i).impl ≠ none ∧ (beh i).impl ≠ some i then (beh i).impl
  else none

/-- The impl attempted at the k-th iteration of the retry loop started
from impl `i` (the replacement chain). -/
def traceF (beh : Nat → ImplInit) : Nat → Nat → Option Nat
  | i, 0 => some i
  | i, k + 1 =>
      match nextImpl beh i with
      | none => none
      | some j => traceF beh j k

theorem initLoop_repeat_fails (beh : Nat → ImplInit) (flag : Bool) :
    ∀ (k fuel : Nat) (log : List Nat) (i a : Nat),
      traceF beh i k = some a →
      ((∃ j, j < k ∧ traceF beh i j = some a) ∨ (a ∈ log ∧ 1 ≤ k)) →
      k < fuel →
      initLoop beh flag fuel log i = .fail := by
  intro k
  induction k with
  | zero =>
      intro fuel log i a htr hrep hf
      rcases hrep with ⟨j, hj, _⟩ | ⟨_, h1⟩ <;> omega
  | succ k ih =>
      intro fuel log i a htr hrep hf
      rw [traceF] at htr
      cases hn : nextImpl beh i with
      | none => rw [hn] at htr; cases htr
      | some b =>
          rw [hn] at htr
          have hcond : ((beh i).r = EAGAIN ∧ (beh i).impl ≠ none ∧ (beh i).impl ≠ some i)
              ∧ (beh i).impl = some b := by
            by_cases hc : (beh i).r = EAGAIN ∧ (beh i).impl ≠ none ∧ (beh i).impl ≠ some i
            · rw [nextImpl, if_pos hc] at hn; exact ⟨hc, hn⟩
            · rw [nextImpl, if_neg hc] at hn; cases hn
          have hbi : b ≠ i := by
            intro hbi
            exact hcond.1.2.2 (hbi ▸ hcond.2)
          obtain ⟨f, rfl⟩ : ∃ f, fuel = f + 1 := ⟨fuel - 1, by omega⟩
          rw [initLoop, if_pos hcond.1]
          simp only [hcond.2]
          by_cases hm : b ∈ log
          · rw [if_pos hm]
          · rw [if_neg hm]
            apply ih f (i :: log) b a htr _ (by omega)
            rcases hrep with ⟨j, hj, hjt⟩ | ⟨hmem, _⟩
            · match j with
              | 0 =>
                  have hai : a = i := (Option.some.inj hjt).symm ▸ rfl
                  right
                  refine ⟨hai ▸ List.mem_cons_self i log, ?_⟩
                  match k with
                  | 0 =>
                      have : b = a := Option.some.inj htr
                      exact absurd (this.trans hai) hbi
                  | k + 1 => omega
              | j + 1 =>
                  rw [traceF, hn] at hjt
                  exact Or.inl ⟨j, by omega, hjt⟩
            · right
              refine ⟨List.mem_cons_of_mem i hmem, ?_⟩
              match k with
              | 0 =>
                  have : b = a := Option.some.inj htr
                  exact absurd (this ▸ hmem) hm
              | k + 1 => omega

/-- Claim C5: if the replacement chain started from `impl0` requests some
impl twice (`traceF` hits the same impl `a` at two different iterations),
`new_channel` fails and returns null — never an infinite retry; in
particular (second conjunct) a behaviour in which every init call
requests re-init with the same fixed replacement impl `b` is rejected
within two iterations. -/
theorem c5_init_loop_detected (st : CtxState) (beh : Nat → ImplInit) (flag : Bool)
    (impl0 cid j k a fuel : Nat)
    (hj : traceF beh impl0 j = some a) (hk : traceF beh impl0 k = some a)
    (hjk : j < k) (hfuel : k < fuel) :
    newChannel st beh flag fuel impl0 cid = .fail
  ∧ ∀ (st2 : CtxState) (flag2 : Bool) (i0 b cid2 f2 : Nat),
      i0 ≠ b → 2 ≤ f2 →
      newChannel st2 (fun _ => ⟨EAGAIN, some b, none⟩) flag2 f2 i0 cid2 = .fail := by
  constructor
  · have hfail := initLoop_repeat_fails beh flag k fuel [] impl0 a hk
        (Or.inl ⟨j, hjk, hj⟩) hfuel
    rw [newChannel, hfail]
  · intro st2 flag2 i0 b cid2 f2 hib hf2
    obtain ⟨f, rfl⟩ : ∃ f, f2 = (f + 1) + 1 := ⟨f2 - 2, by omega⟩
    have h1 : initLoop (fun _ => ⟨EAGAIN, some b, none⟩) flag2 ((f + 1) + 1) [] i0
        = .fail := by
      rw [initLoop, if_pos ⟨rfl, by simp, by simp [Ne.symm hib]⟩]
      simp only
      rw [if_neg (List.not_mem_nil b)]
      rw [initLoop, if_neg (by simp)]
      rw [if_pos (by simp [EAGAIN])]
    rw [newChannel, h1]

/-- Behaviour with a two-step replacement cycle `0 → 1 → 0`, for the
witness of `c5_init_loop_detected`. -/
def c5BehEx : Nat → ImplInit := fun i =>
  if i = 0 then ⟨EAGAIN, some 1, none⟩ else ⟨EAGAIN, some 0, none⟩

/-- Witness for `c5_init_loop_detected`: the cycle `0 → 1 → 0` repeats
impl 0 at iterations 0 and 2; `new_channel` fails. -/
theorem c5_init_loop_detected_witness :
    newChannel ⟨[], []⟩ c5BehEx false 3 0 6 = .fail :=
  (c5_init_loop_detected ⟨[], []⟩ c5BehEx false 0 6 0 2 0 3
    (by decide) (by decide) (by decide) (by decide)).1

/-- Behaviour of a plain successful init that names the channel `n`, for
the C3 counterexample. -/
def c3Beh : Nat → ImplInit := fun _ => ⟨0, some 5, some ⟨some "n", 0, 200⟩⟩

/-- Claim C3, counterexample: with the name `n` already bound to channel
1 (and its config mirrored as 100), `new_channel` for a second channel
named `n` does not fail with `ALREADY_EXISTS`: it succeeds and returns
the new channel; the stale index binding survives (`emplace` is a
no-op), but the mirrored config entry is overwritten by the new
channel's config. -/
theorem c3_counterexample :
    newChannel ⟨[("n", 1)], [("n", 100)]⟩ c3Beh false 5 5 2
      = .ok ⟨5, some "n", 0, 200⟩ ⟨[("n", 1)], [("n", 200)]⟩
  ∧ newChannel ⟨[("n", 1)], [("n", 100)]⟩ c3Beh false 5 5 2 ≠ .fail
  ∧ ([("n", 200)] : List (String × Nat)) ≠ [("n", 100)] := by
  refine ⟨by decide, by decide, by decide⟩

/-- Claim C3 (amended): for every context whose name index already binds
`n` and every non-internal URL whose init succeeds with name `n`,
`new_channel` succeeds and returns the new channel: the existing name
binding is left unchanged (the `emplace` result — the duplicate flag of
the comment `// Check for dup` — is discarded), while the mirrored
config entry `context.config[n]` is overwritten with the new channel's
config. -/
theorem c3_duplicate_name (st : CtxState) (beh : Nat → ImplInit)
    (impl0 cid fuel : Nat) (i : Internal) (n : String)
    (hbeh : beh impl0 = ⟨0, some impl0, some i⟩)
    (hname : i.name = some n)
    (hdup : (st.channels.any fun p => p.1 == n) = true)
    (hfuel : 1 ≤ fuel) :
    newChannel st beh false fuel impl0 cid
      = .ok ⟨impl0, some n, i.caps, i.config⟩ ⟨st.channels, setAssoc st.config n i.config⟩ := by
  obtain ⟨f, rfl⟩ : ∃ f, fuel = f + 1 := ⟨fuel - 1, by omega⟩
  have hloop : initLoop beh false (f + 1) [] impl0 = .ok impl0 i := by
    rw [initLoop, if_neg (by simp [hbeh, EAGAIN]), if_neg (by simp [hbeh]), hbeh]
    simp
  rw [newChannel, hloop]
  simp only [hname]
  rw [emplace, if_pos hdup]

/-- Witness for `c3_duplicate_name` at a concrete one-entry context. -/
theorem c3_duplicate_name_witness :
    newChannel ⟨[("n", 1)], [("n", 100)]⟩ c3Beh false 1 5 2
      = .ok ⟨5, some "n", 0, 200⟩ ⟨[("n", 1)], [("n", 200)]⟩ := by
  have h := c3_duplicate_name ⟨[("n", 1)], [("n", 100)]⟩ c3Beh 5 2 1
      ⟨some "n", 0, 200⟩ "n" rfl rfl (by decide) (by decide)
  simpa [setAssoc] using h

/-- Behaviour whose init returns success (0) while leaving
`c->internal` null, for claim C6. -/
def c6Beh : Nat → ImplInit := fun _ => ⟨0, some 3, none⟩

/-- Claim C6: evaluation of the code at the failing input.  With
`tll.internal=yes` and an init that returns success leaving the internal
pointer null, the line `c->internal->caps |= caps::Custom` (context.cc
line 500-501) dereferences the null internal pointer before the
`if (!c->internal)` check of lines 502-503 — the crash outcome; with
`tll.internal` unset the same init fails cleanly (null returned). -/
theorem c6_null_internal :
    newChannel ⟨[], []⟩ c6Beh true 5 3 9 = .crash
  ∧ newChannel ⟨[], []⟩ c6Beh false 5 3 9 = .fail := by
  refine ⟨by decide, by decide⟩

/-- Behaviour of a successful init that leaves the channel nameless, for
claim C10. -/
def c10Beh : Nat → ImplInit := fun _ => ⟨0, some 4, some ⟨none, 0, 77⟩⟩

/-- Claim C10: `new_channel` legally produces a successful non-Custom
channel whose name is null — it is simply never registered in the index
(first conjunct, state unchanged); `tll_channel_free` reads the name
unconditionally, so it crashes on any channel with a null name (second
conjunct); and on every non-Custom channel with a non-null name it
erases that name from the context's name index and config tree (third
conjunct). -/
theorem c10_free_reads_name (st : CtxState) (c : ChannelModel) (n : String) :
    newChannel ⟨[], []⟩ c10Beh false 3 4 8 = .ok ⟨4, none, 0, 77⟩ ⟨[], []⟩
  ∧ (c.name = none → tll_channel_free st c = .crash)
  ∧ (c.name = some n → c.caps &&& TLL_CAPS_CUSTOM = 0 →
      tll_channel_free st c = .ok ⟨eraseAssoc st.channels n, eraseAssoc st.config n⟩) := by
  refine ⟨by decide, ?_, ?_⟩
  · intro h
    rw [tll_channel_free, h]
  · intro h hcaps
    rw [tll_channel_free, h]
    simp only [if_pos hcaps]

/-- Witness for `c10_free_reads_name`: freeing the nameless non-Custom
channel produced above dereferences the null name. -/
theorem c10_free_reads_name_witness :
    tll_channel_free ⟨[("m", 3)], [("m", 9)]⟩ ⟨4, none, 0, 77⟩ = .crash :=
  (c10_free_reads_name ⟨[("m", 3)], [("m", 9)]⟩ ⟨4, none, 0, 77⟩ "m").2.1 rfl

/-! ### Processor loop (`src/tll/processor/loop.h`)

Channels here are opaque `Nat` identities; a slot of the compact
`List<T>` vector is `Option Nat` (`none` = nulled slot).  `procRet c` is
the return value of `c->process()` (a small non-negative errno value in
the C code). -/

/-- `tll::processor::List<T>` (loop.h lines 32-86): a vector plus a
logical `size`; iteration covers `list[0 .. size)`. -/
structure LList where
  list : List (Option Nat)
  size : Nat
  deriving DecidableEq

def LList.empty : LList := ⟨[], 0⟩

def firstNullIdx (xs : List (Option Nat)) : Option Nat :=
  match xs with
  | [] => none
  | none :: _ => some 0
  | some _ :: rest => (firstNullIdx rest).map (· + 1)

/-- `List::add` (loop.h lines 56-70): reuse the first null slot in
`[0, size)`, else write at `size` when capacity allows, else push. -/
def LList.add (l : LList) (v : Nat) : LList :=
  match firstNullIdx (l.list.take l.size) with
  | some i => ⟨l.list.set i (some v), l.size⟩
  | none =>
      if l.size < l.list.length then ⟨l.list.set l.size (some v), l.size + 1⟩
      else ⟨l.list ++ [some v], l.size + 1⟩

def nullFirst (xs : List (Option Nat)) (v : Nat) : List (Option Nat) :=
  match xs with
  | [] => []
  | x :: rest => if x = some v then none :: rest else x :: nullFirst rest v

/-- The trailing-null truncation of `List::del` (loop.h lines 81-84). -/
def shrinkSize (xs : List (Option Nat)) : Nat → Nat
  | 0 => 0
  | s + 1 => if xs.getD s none = none then shrinkSize xs s else s + 1

/-- `List::del` (loop.h lines 72-85): null the first slot in `[0, size)`
holding `v`, then lazily truncate trailing null slots. -/
def LList.del (l : LList) (v : Nat) : LList :=
  let xs := nullFirst (l.list.take l.size) v ++ l.list.drop l.size
  ⟨xs, shrinkSize xs l.size⟩

/-- One `r |= c->process() ^ EAGAIN` accumulation pass of `Loop::process`
(loop.h lines 143-150), skipping null slots. -/
def processRound (procRet : Nat → Nat) (slots : List (Option Nat)) (r : Nat) : Nat :=
  match slots with
  | [] => r
  | none :: rest => processRound procRet rest r
  | some c :: rest => processRound procRet rest (r ||| (procRet c ^^^ EAGAIN))

/-- `Loop::process` (loop.h lines 140-152): accumulate over `list_p` then
`list_pending`, and return `EAGAIN` iff the accumulator stayed 0. -/
def loopProcess (procRet : Nat → Nat) (lp lpend : LList) : Nat :=
  if processRound procRet (lpend.list.take lpend.size)
      (processRound procRet (lp.list.take lp.size) 0) = 0
  then EAGAIN else 0

/-- The `for (auto & c : list_pending) c->process();` walk of the
self-notify branch of `Loop::poll` (loop.h lines 126-131).  Unlike
`Loop::process` it has no null check, so a null slot is dereferenced:
outcome `none`. -/
def derefProcess (procRet : Nat → Nat) : List (Option Nat) → Option (List Nat)
  | [] => some []
  | none :: _ => none
  | some c :: rest => (derefProcess procRet rest).map (fun l => procRet c :: l)

/-- The self-notify branch of `Loop::poll` applied to `list_pending`. -/
def pollPendingRun (procRet : Nat → Nat) (lpend : LList) : Option (List Nat) :=
  derefProcess procRet (lpend.list.take lpend.size)

theorem lor_eq_zero_iff (a b : Nat) : a ||| b = 0 ↔ a = 0 ∧ b = 0 := by
  constructor
  · intro h
    have hb : ∀ i, (a.testBit i || b.testBit i) = false := by
      intro i
      have := congrArg (fun x => x.testBit i) h
      simpa [Nat.testBit_or, Nat.zero_testBit] using this
    refine ⟨Nat.eq_of_testBit_eq fun i => ?_, Nat.eq_of_testBit_eq fun i => ?_⟩
    · simpa [Nat.zero_testBit] using (Bool.or_eq_false_iff.mp (hb i)).1
    · simpa [Nat.zero_testBit] using (Bool.or_eq_false_iff.mp (hb i)).2
  · rintro ⟨rfl, rfl⟩; rfl

theorem processRound_eq_zero (procRet : Nat → Nat) (slots : List (Option Nat)) :
    ∀ r, (processRound procRet slots r = 0 ↔
      (r = 0 ∧ ∀ c ∈ slots.filterMap id, procRet c = EAGAIN)) := by
  induction slots with
  | nil => intro r; simp [processRound]
  | cons x rest ih =>
      intro r
      match x with
      | none => simpa [processRound] using ih r
      | some c =>
          rw [processRound, ih]
          simp only [lor_eq_zero_iff, Nat.xor_eq_zero, List.filterMap_cons, id]
          simp [and_assoc, and_comm, and_left_comm]

/-- Claim C7: `Loop::process` calls `process` on every non-null entry of
`list_p` and `list_pending` (the accumulated condition below quantifies
over exactly those entries) and returns `EAGAIN` iff every invocation
returned `EAGAIN`; otherwise it returns 0. -/
theorem c7_process_aggregate (procRet : Nat → Nat) (lp lpend : LList) :
    (loopProcess procRet lp lpend = EAGAIN ↔
      ∀ c ∈ (lp.list.take lp.size).filterMap id ++ (lpend.list.take lpend.size).filterMap id,
        procRet c = EAGAIN)
  ∧ (loopProcess procRet lp lpend = EAGAIN ∨ loopProcess procRet lp lpend = 0) := by
  have key : (processRound procRet (lpend.list.take lpend.size)
        (processRound procRet (lp.list.take lp.size) 0) = 0) ↔
      ∀ c ∈ (lp.list.take lp.size).filterMap id ++ (lpend.list.take lpend.size).filterMap id,
        procRet c = EAGAIN := by
    rw [processRound_eq_zero, processRound_eq_zero]
    simp only [List.mem_append]
    constructor
    · rintro ⟨⟨_, h1⟩, h2⟩ c hc
      rcases hc with hc | hc
      · exact h1 c hc
      · exact h2 c hc
    · intro h
      exact ⟨⟨trivial, fun c hc => h c (Or.inl hc)⟩, fun c hc => h c (Or.inr hc)⟩
  constructor
  · constructor
    · intro he
      by_cases h : processRound procRet (lpend.list.take lpend.size)
          (processRound procRet (lp.list.take lp.size) 0) = 0
      · exact key.mp h
      · rw [loopProcess, if_neg h] at he
        exact absurd he.symm (by decide)
    · intro hall
      rw [loopProcess, if_pos (key.mpr hall)]
  · by_cases h : processRound procRet (lpend.list.take lpend.size)
        (processRound procRet (lp.list.take lp.size) 0) = 0
    · left; rw [loopProcess, if_pos h]
    · right; rw [loopProcess, if_neg h]

/-- Claim C8: evaluation of the code at the failing input.  The
`list_pending` state reached by `add c1; add c2; add c3; del c2` keeps
`size = 3` with a nulled interior slot; the self-notify branch of
`Loop::poll` walks all three slots with no null check and dereferences
the null slot (`none` outcome), while `Loop::process` over the very same
vector skips it. -/
theorem c8_pending_null_deref :
    (((LList.empty.add 1).add 2).add 3).del 2 = ⟨[some 1, none, some 3], 3⟩
  ∧ pollPendingRun (fun _ => EAGAIN) ⟨[some 1, none, some 3], 3⟩ = none
  ∧ loopProcess (fun _ => EAGAIN) LList.empty ⟨[some 1, none, some 3], 3⟩ = EAGAIN := by
  refine ⟨by decide, by decide, by decide⟩

/-! ### Callback tables (`src/channel/context.cc` lines 632-726)

A slot of the `(function, user, mask)` vectors: `cb = none` models a
nulled (freed) slot; live callback function pointers and user pointers
are opaque `Nat` identities.  The table list models the first `size`
entries of the C array. -/

structure CbSlot where
  cb : Option Nat
  user : Nat
  mask : Nat
  deriving DecidableEq

/-- `callback_shrink` (context.cc lines 661-668): truncate trailing
slots whose `cb` is null. -/
def callback_shrink (tbl : List CbSlot) : List CbSlot :=
  (tbl.reverse.dropWhile fun s => s.cb == none).reverse

/-- Index of the first slot matching `(cb, user)` (the scan of
context.cc lines 672-675; a nulled slot never matches because the
searched `cb` is non-null). -/
def findCb (tbl : List CbSlot) (cb user : Nat) : Option Nat :=
  match tbl with
  | [] => none
  | s :: rest =>
      if s.cb = some cb ∧ s.user = user then some 0
      else (findCb rest cb user).map (· + 1)

/-- `callback_del` (context.cc lines 670-685): find the matching slot,
clear the requested mask bits; if bits remain keep the slot, otherwise
null it and truncate trailing nulls; `none` is the `ENOENT` miss. -/
def callback_del (tbl : List CbSlot) (cb user mask : Nat) : Option (List CbSlot) :=
  match findCb tbl cb user with
  | none => none
  | some idx =>
      let s := tbl.getD idx ⟨none, 0, 0⟩
      let m2 := clearBits s.mask mask
      if m2 ≠ 0 then some (tbl.set idx { s with mask := m2 })
      else some (callback_shrink (tbl.set idx ⟨none, 0, 0⟩))

/-- The two callback vectors of a channel's Internal block. -/
structure CbTables where
  data_cb : List CbSlot
  cb : List CbSlot
  deriving DecidableEq

/-- `tll_channel_callback_del` (context.cc lines 709-726) for a non-null
channel and callback: when the mask has the DATA bit, delete from the
DATA table with mask `TLL_MESSAGE_MASK_DATA` — the return value of that
deletion is discarded — and, if no other mask bits remain, return 0;
any residual mask is deleted from the non-DATA table and that result
(`0` or `ENOENT`) is returned. -/
def tll_channel_callback_del (t : CbTables) (cb user mask : Nat) : Nat × CbTables :=
  if mask &&& TLL_MESSAGE_MASK_DATA ≠ 0 then
    let t1 : CbTables := ⟨(callback_del t.data_cb cb user TLL_MESSAGE_MASK_DATA).getD t.data_cb, t.cb⟩
    let m2 := mask ^^^ TLL_MESSAGE_MASK_DATA
    if m2 = 0 then (0, t1)
    else
      match callback_del t1.cb cb user m2 with
      | none => (ENOENT, t1)
      | some tbl => (0, ⟨t1.data_cb, tbl⟩)
  else
    match callback_del t.cb cb user mask with
    | none => (ENOENT, t)
    | some tbl => (0, ⟨t.data_cb, tbl⟩)

/-- Claim C9: evaluation of the code at the failing input.  With both
callback tables empty (so no `(cb, user)` slot exists anywhere) a delete
whose mask is exactly the DATA bit returns 0, not `ENOENT` (first
conjunct) — the miss reported by the DATA-table `callback_del` is
discarded and the early `if (mask == 0) return 0` wins; a non-DATA mask
or a mixed mask correctly reports `ENOENT` (second and third conjuncts). -/
theorem c9_data_only_miss :
    (tll_channel_callback_del ⟨[], []⟩ 5 7 TLL_MESSAGE_MASK_DATA).1 = 0
  ∧ (tll_channel_callback_del ⟨[], []⟩ 5 7 TLL_MESSAGE_MASK_STATE).1 = ENOENT
  ∧ (tll_channel_callback_del ⟨[], []⟩ 5 7
        (TLL_MESSAGE_MASK_DATA ||| TLL_MESSAGE_MASK_STATE)).1 = ENOENT
  ∧ (0 : Nat) ≠ ENOENT := by
  refine ⟨by decide, by decide, by decide, by decide⟩

/-- Witness for `c1_suspend_subtree` at a concrete two-node tree. -/
theorem c1_suspend_subtree_witness :
    (tll_channel_suspend (Chan.mk 0 (ChanList.cons (Chan.mk 0 ChanList.nil) ChanList.nil))).rootDcaps
        &&& (TLL_DCAPS_SUSPEND ||| TLL_DCAPS_SUSPEND_PERMANENT)
      = (TLL_DCAPS_SUSPEND ||| TLL_DCAPS_SUSPEND_PERMANENT) :=
  (c1_suspend_subtree (Chan.mk 0 (ChanList.cons (Chan.mk 0 ChanList.nil) ChanList.nil))).1

/-- Witness for `c7_process_aggregate` at concrete one-entry lists. -/
theorem c7_process_aggregate_witness :
    loopProcess (fun _ => EAGAIN) ⟨[some 1], 1⟩ ⟨[some 2], 1⟩ = EAGAIN :=
  (c7_process_aggregate (fun _ => EAGAIN) ⟨[some 1], 1⟩ ⟨[some 2], 1⟩).1.mpr (by decide)
